import Mathlib

/-!
Verification of the core shell loop of `src/shell.c` (tiny-ps4-shell):
line reading, tokenization, prompt, dispatch and fork/wait status
propagation, via a shallow embedding of the source functions.
-/

/-- Output streams used by the reporting calls in `shell.c`
(`printf` writes to stdout, `fprintf(stderr, ...)` to stderr). -/
inductive OutStream
  | stdout
  | stderr
deriving DecidableEq, Repr

/-- Messages emitted by the embedded functions.  The `strerror(errno)`
suffix of a message is environment data, so only the message kind and
any formatted command name are modelled. -/
inductive Msg
  | mallocFail
  | reallocFail
  | forkFail
  | notFound (cmd : String)
deriving DecidableEq, Repr

/-- One output event: which stream a message is written to. -/
abbrev OutEvt := OutStream × Msg

/-- Buffer size constant `SHELL_LINE_BUFSIZE` from `shell.c`. -/
def SHELL_LINE_BUFSIZE : Nat := 1024

/-- Buffer size constant `SHELL_TOK_BUFSIZE` from `shell.c`. -/
def SHELL_TOK_BUFSIZE : Nat := 128

/-- Membership in the delimiter set `SHELL_TOK_DELIM = " \t\r\n\a"`
(space, tab, carriage return, newline, bell). -/
def isDelim (c : Char) : Bool :=
  c = ' ' || c = '\t' || c = '\r' || c = '\n' || c = '\x07'

/-- The token sequence produced by the `strtok(line, SHELL_TOK_DELIM)`
loop of `shell_splitline`: leading delimiters are skipped, a token is a
maximal run of non-delimiter characters, and scanning resumes after it. -/
def strtokAll (l : List Char) : List (List Char) :=
  match l with
  | [] => []
  | c :: cs =>
    if isDelim c then
      strtokAll cs
    else
      (c :: cs.takeWhile (fun x => !isDelim x)) ::
        strtokAll (cs.dropWhile (fun x => !isDelim x))
termination_by l.length
decreasing_by
  · simp
  · have h := (List.dropWhile_sublist (l := cs) (fun x => !isDelim x)).length_le
    simp
    omega

/-- Written from the spec's words, for comparison with `strtokAll`:
split the line at every delimiter character, keeping the (possibly
empty) chunks between consecutive delimiters. -/
def naiveSplit : List Char → List (List Char)
  | [] => [[]]
  | c :: cs =>
    if isDelim c then
      [] :: naiveSplit cs
    else
      match naiveSplit cs with
      | [] => [[c]]
      | t :: ts => (c :: t) :: ts

/-- Written from the spec's words: the collapsed-run token list, i.e.
the chunks of `naiveSplit` with every empty chunk removed. -/
def specCollapsedTokens (l : List Char) : List (List Char) :=
  (naiveSplit l).filter (fun t => t ≠ [])

/-- One result of the `read(STDIN_FILENO, &c, 1)` call in
`shell_readline`: either an interrupted read (`-1` with `errno ==
EINTR`) or one byte.  End of stream (`len <= 0` otherwise) is the end
of the event list. -/
inductive ReadEvt
  | intr
  | chr (c : Char)
deriving DecidableEq, Repr

/-- The bytes carried by a read-event stream. -/
def bytesOf : List ReadEvt → List Char
  | [] => []
  | ReadEvt.intr :: rest => bytesOf rest
  | ReadEvt.chr c :: rest => c :: bytesOf rest

/-- The `while(1)` read loop of `shell_readline`: `buf` is the
characters stored so far (its length is the C `position`), `bufsize`
the current capacity, and `g` counts growth steps to index the
`reallocOk` oracle.  A failed `realloc` reports on stderr and returns
no line; end of the event stream models `read` returning `len <= 0`
(free the buffer, return `NULL`). -/
def readLoop (reallocOk : Nat → Bool) :
    List ReadEvt → List Char → Nat → Nat → Option (List Char) × List OutEvt
  | [], _, _, _ => (none, [])
  | ReadEvt.intr :: rest, buf, bufsize, g => readLoop reallocOk rest buf bufsize g
  | ReadEvt.chr c :: rest, buf, bufsize, g =>
    if c = '\n' then
      (some buf, [])
    else
      let buf' := buf ++ [c]
      if bufsize ≤ buf'.length then
        if reallocOk g then
          readLoop reallocOk rest buf' (bufsize + SHELL_LINE_BUFSIZE) (g + 1)
        else
          (none, [(OutStream.stderr, Msg.reallocFail)])
      else
        readLoop reallocOk rest buf' bufsize g

/-- `shell_readline`: the initial `malloc` failure reports on stderr
and returns no line (`mallocOk` models its outcome); otherwise the
read loop runs with the initial capacity `SHELL_LINE_BUFSIZE`. -/
def shell_readline (mallocOk : Bool) (reallocOk : Nat → Bool)
    (input : List ReadEvt) : Option (List Char) × List OutEvt :=
  if mallocOk then
    readLoop reallocOk input [] SHELL_LINE_BUFSIZE 0
  else
    (none, [(OutStream.stderr, Msg.mallocFail)])

/-- The `strtok` storage loop of `shell_splitline`: each token is
stored at `position` (the length of `acc`), and when `position`
reaches `bufsize` the token array grows by `SHELL_TOK_BUFSIZE`; a
failed `realloc` reports with `printf` (stdout) and returns no
tokens. -/
def splitLoop (reallocOk : Nat → Bool) :
    List (List Char) → List (List Char) → Nat → Nat →
      Option (List (List Char)) × List OutEvt
  | [], acc, _, _ => (some acc, [])
  | t :: rest, acc, bufsize, g =>
    let acc' := acc ++ [t]
    if bufsize ≤ acc'.length then
      if reallocOk g then
        splitLoop reallocOk rest acc' (bufsize + SHELL_TOK_BUFSIZE) (g + 1)
      else
        (none, [(OutStream.stdout, Msg.reallocFail)])
    else
      splitLoop reallocOk rest acc' bufsize g

/-- `shell_splitline`: the initial `malloc` failure reports with
`printf` (stdout) and returns no tokens; otherwise the `strtok` loop
stores the tokens of the line with initial capacity
`SHELL_TOK_BUFSIZE`. -/
def shell_splitline (mallocOk : Bool) (reallocOk : Nat → Bool)
    (line : List Char) : Option (List (List Char)) × List OutEvt :=
  if mallocOk then
    splitLoop reallocOk (strtokAll line) [] SHELL_TOK_BUFSIZE 0
  else
    (none, [(OutStream.stdout, Msg.mallocFail)])

/-- `shell_prompt`: `getenv("PWD")` and `getcwd` are environment
queries, passed in as options; the printed prompt is
`"%s$ "` of the resolved directory, with `"(null)"` when both fail. -/
def shell_prompt (envPWD : Option String) (getcwdRes : Option String) : String :=
  let cwd := match envPWD with
    | some p => some p
    | none => getcwdRes
  (match cwd with
    | some s => s
    | none => "(null)") ++ "$ "

/-- `WIFEXITED(status)`: `(status & 0x7f) == 0`. -/
def WIFEXITED (s : Nat) : Bool := s % 128 = 0

/-- `WIFSIGNALED(status)`: `((signed char)(((status & 0x7f) + 1) >> 1)) > 0`,
i.e. the low seven bits are neither `0` (exited) nor `0x7f` (stopped). -/
def WIFSIGNALED (s : Nat) : Bool := !(s % 128 = 0) && !(s % 128 = 127)

/-- `WEXITSTATUS(status)`: `(status >> 8) & 0xff`. -/
def WEXITSTATUS (s : Nat) : Nat := (s / 256) % 256

/-- The `do { sys_waitpid(...) } while (!WIFEXITED && !WIFSIGNALED)`
loop of `shell_fork`'s parent branch over the statuses successive
waits report: the first terminal status is kept, stopped
notifications are skipped, and `none` models a wait sequence in which
no terminal status is ever observed (the loop never returns). -/
def waitLoop : List Nat → Option Nat
  | [] => none
  | s :: rest =>
    if WIFEXITED s || WIFSIGNALED s then some s else waitLoop rest

/-- The parent-side behavior of `shell_fork`: `forkOk` is the outcome
of `sys_fork` (`pid < 0` on failure), `waits` the statuses the wait
loop observes.  On failure the error is reported on stderr and `-1`
returned; otherwise `WEXITSTATUS` of the first terminal status is
returned.  The `pid == 0` branch runs in the child process and is not
part of the parent's result. -/
def shell_fork (forkOk : Bool) (waits : List Nat) : Option Int × List OutEvt :=
  if forkOk then
    match waitLoop waits with
    | some s => (some (Int.ofNat (WEXITSTATUS s)), [])
    | none => (none, [])
  else
    (some (-1), [(OutStream.stderr, Msg.forkFail)])

/-- The `commands[]` table of `shell.c`: name and `fork` flag, in
source order.  The handler entry points live in other translation
units and are not needed for the dispatch claims. -/
def commands : List (String × Bool) :=
  [("cd", false), ("cp", true), ("dmesg", true), ("env", false),
   ("exit", false), ("help", true), ("id", true), ("jailbreak", false),
   ("kill", true), ("ls", true), ("mkdir", true), ("mount", true),
   ("pwd", true), ("rmdir", true), ("sleep", true), ("stat", true),
   ("uname", true)]

/-- The `strcmp` scan of `shell_execute` over the command table:
returns the matched entry's `fork` flag (first match wins) and the
list of names compared, in order. -/
def scanCommands (name : String) : List (String × Bool) → Option Bool × List String
  | [] => (none, [])
  | (n, f) :: rest =>
    if name = n then
      (some f, [n])
    else
      let r := scanCommands name rest
      (r.1, n :: r.2)

/-- The control-flow outcome of `shell_execute`. -/
inductive Dispatch
  | noop
  | forked (name : String)
  | inlined (name : String)
  | notFound (name : String)
deriving DecidableEq, Repr

/-- The dispatch decision of `shell_execute`: `argc` is the scan to
the `NULL` marker (the list length); `argc == 0` returns before the
table scan; otherwise the first token is looked up and routed by the
entry's `fork` flag.  The second component is the list of table names
compared. -/
def dispatch (argv : List String) : Dispatch × List String :=
  match argv with
  | [] => (Dispatch.noop, [])
  | cmd :: _ =>
    match scanCommands cmd commands with
    | (some true, seen) => (Dispatch.forked cmd, seen)
    | (some false, seen) => (Dispatch.inlined cmd, seen)
    | (none, seen) => (Dispatch.notFound cmd, seen)

/-- `shell_execute`, parameterized by the result of delegating to
`shell_fork` (`forkRun`, which may also emit events) and of calling a
handler inline (`inlineRun`): `-1` for an empty argv, the delegated or
inline result on a match, and `-1` with a `printf` (stdout)
not-found message otherwise. -/
def shell_execute (forkRun : String → List String → Int × List OutEvt)
    (inlineRun : String → List String → Int)
    (argv : List String) : Int × List OutEvt :=
  match (dispatch argv).1 with
  | Dispatch.noop => (-1, [])
  | Dispatch.forked name => forkRun name argv
  | Dispatch.inlined name => (inlineRun name argv, [])
  | Dispatch.notFound name => (-1, [(OutStream.stdout, Msg.notFound name)])

/-- Modelled from the spec: the builtin handlers (`main_cd`,
`main_exit`, ...) are declared in `commands.h` but their bodies are
not under `src/`; per the spec, only the inline `exit` handler
changes the driver's running state to TERMINATED, and no other
handler touches it. -/
def exitSetsTerminated (name : String) : Bool := name = "exit"

/-- The token strings of a line, as `shell_loop` passes them from
`shell_splitline` to `shell_execute` (success path). -/
def tokensOfLine (l : List Char) : List String :=
  (strtokAll l).map (fun t => String.mk t)

/-- One iteration of the `while(running)` body of `shell_loop`, as far
as the `running` flag is concerned: `line` is the `shell_readline`
result (`none` models `NULL`, in particular end of input);
`running` only changes when the dispatched command runs the inline
handler that the spec models as setting TERMINATED. -/
def loopIter (running : Bool) (line : Option (List Char)) : Bool :=
  match line with
  | none => running
  | some l =>
    match (dispatch (tokensOfLine l)).1 with
    | Dispatch.inlined name => if exitSetsTerminated name then false else running
    | _ => running

/-- The number of iterations `shell_loop` performs over a finite
script of successive `shell_readline` results: the loop body runs only
while `running` holds, and the model's horizon stops when the script
is exhausted. -/
def driverIters : Bool → List (Option (List Char)) → Nat
  | false, _ => 0
  | true, [] => 0
  | true, line :: rest => 1 + driverIters (loopIter true line) rest

/-- A concrete input stream of 2500 bytes followed by a newline: long
enough to force two growth steps of the 1024-byte line buffer. -/
def longInput : List ReadEvt :=
  (List.replicate 2500 (ReadEvt.chr 'a')) ++ [ReadEvt.chr '\n']

theorem strtokAll_nil : strtokAll [] = [] := by
  rw [strtokAll]

theorem strtokAll_cons_delim (c : Char) (cs : List Char) (hc : isDelim c = true) :
    strtokAll (c :: cs) = strtokAll cs := by
  rw [strtokAll]
  simp [hc]

theorem strtokAll_cons_tok (c : Char) (cs : List Char) (hc : isDelim c = false) :
    strtokAll (c :: cs) =
      (c :: cs.takeWhile (fun x => !isDelim x)) ::
        strtokAll (cs.dropWhile (fun x => !isDelim x)) := by
  rw [strtokAll]
  simp [hc]

theorem naiveSplit_eq_head_tail (l : List Char) :
    naiveSplit l = l.takeWhile (fun c => !isDelim c) ::
      (match l.dropWhile (fun c => !isDelim c) with
       | [] => []
       | _ :: r => naiveSplit r) := by
  induction l with
  | nil => rfl
  | cons c cs ih =>
    by_cases hc : isDelim c
    · simp [naiveSplit, hc, List.takeWhile_cons, List.dropWhile_cons]
    · simp only [naiveSplit, hc, if_false, ih,
        List.takeWhile_cons, List.dropWhile_cons]
      simp [hc]

theorem dropWhile_head_delim (cs : List Char) (d : Char) (r : List Char)
    (h : cs.dropWhile (fun c => !isDelim c) = d :: r) : isDelim d = true := by
  have hd := List.head?_dropWhile_not (fun c => !isDelim c) cs
  rw [h] at hd
  simp at hd
  exact hd

theorem strtok_eq_bounded : ∀ (n : Nat) (l : List Char), l.length ≤ n →
    strtokAll l = specCollapsedTokens l := by
  intro n
  induction n with
  | zero =>
    intro l hl
    have hnil : l = [] := by
      cases l
      · rfl
      · simp at hl
    subst hnil
    simp [strtokAll_nil, specCollapsedTokens, naiveSplit]
  | succ n ih =>
    intro l hl
    cases l with
    | nil => simp [strtokAll_nil, specCollapsedTokens, naiveSplit]
    | cons c cs =>
      have hcs : cs.length ≤ n := by
        simp at hl
        omega
      by_cases hc : isDelim c
      · rw [strtokAll_cons_delim c cs hc, ih cs hcs]
        simp [specCollapsedTokens, naiveSplit, hc]
      · rw [strtokAll_cons_tok c cs (by simpa using hc)]
        have hn := naiveSplit_eq_head_tail cs
        simp only [specCollapsedTokens, naiveSplit, hc, if_false, hn]
        match hdrop : cs.dropWhile (fun x => !isDelim x) with
        | [] =>
          simp [strtokAll_nil]
        | d :: r =>
          have hdel : isDelim d = true := dropWhile_head_delim cs d r hdrop
          have hlen : r.length ≤ n := by
            have hsub := (List.dropWhile_sublist
              (l := cs) (fun x => !isDelim x)).length_le
            rw [hdrop] at hsub
            simp at hsub
            omega
          rw [strtokAll_cons_delim d r hdel, ih r hlen]
          simp [specCollapsedTokens]

theorem strtok_eq_specCollapsed (l : List Char) :
    strtokAll l = specCollapsedTokens l :=
  strtok_eq_bounded l.length l (Nat.le_refl _)

theorem splitLoop_sound (rOk : Nat → Bool) :
    ∀ (toks acc : List (List Char)) (bufsize g : Nat) (ts : List (List Char)),
      (splitLoop rOk toks acc bufsize g).1 = some ts → ts = acc ++ toks := by
  intro toks
  induction toks with
  | nil =>
    intro acc b g ts h
    simp [splitLoop] at h
    simp [h]
  | cons t rest ih =>
    intro acc b g ts h
    rw [splitLoop] at h
    split at h
    · split at h
      · have := ih (acc ++ [t]) _ _ ts h
        simp [this]
      · simp at h
    · have := ih (acc ++ [t]) _ _ ts h
      simp [this]

theorem splitLoop_ok (rOk : Nat → Bool) (hok : ∀ i, rOk i = true) :
    ∀ (toks acc : List (List Char)) (bufsize g : Nat),
      splitLoop rOk toks acc bufsize g = (some (acc ++ toks), []) := by
  intro toks
  induction toks with
  | nil =>
    intro acc b g
    simp [splitLoop]
  | cons t rest ih =>
    intro acc b g
    rw [splitLoop]
    split
    · rw [hok g]
      simp only [if_true]
      rw [ih]
      simp
    · rw [ih]
      simp

theorem splitLoop_trace_stdout (rOk : Nat → Bool) :
    ∀ (toks acc : List (List Char)) (bufsize g : Nat),
      ((splitLoop rOk toks acc bufsize g).2).all
        (fun e => decide (e.1 = OutStream.stdout)) = true := by
  intro toks
  induction toks with
  | nil =>
    intro acc b g
    simp [splitLoop]
  | cons t rest ih =>
    intro acc b g
    rw [splitLoop]
    split
    · split
      · exact ih _ _ _
      · simp
    · exact ih _ _ _

theorem readLoop_newline (rOk : Nat → Bool) (hok : ∀ i, rOk i = true) :
    ∀ (input : List ReadEvt) (buf : List Char) (bufsize g : Nat),
      '\n' ∈ bytesOf input →
      readLoop rOk input buf bufsize g =
        (some (buf ++ (bytesOf input).takeWhile (fun c => c ≠ '\n')), []) := by
  intro input
  induction input with
  | nil =>
    intro buf b g h
    simp [bytesOf] at h
  | cons e rest ih =>
    intro buf b g h
    cases e with
    | intr =>
      rw [readLoop]
      rw [show bytesOf (ReadEvt.intr :: rest) = bytesOf rest from rfl] at h ⊢
      exact ih buf b g h
    | chr c =>
      rw [show bytesOf (ReadEvt.chr c :: rest) = c :: bytesOf rest from rfl] at h ⊢
      by_cases hc : c = '\n'
      · subst hc
        rw [readLoop]
        simp
      · have h' : '\n' ∈ bytesOf rest := by
          cases h with
          | head => exact absurd rfl hc
          | tail _ hm => exact hm
        rw [readLoop]
        simp only [hc, if_false]
        rw [List.takeWhile_cons_of_pos (by simpa using hc)]
        split
        · rw [hok g]
          simp only [if_true]
          rw [ih (buf ++ [c]) _ _ h']
          simp
        · rw [ih (buf ++ [c]) _ _ h']
          simp

theorem readLoop_trace_stderr (rOk : Nat → Bool) :
    ∀ (input : List ReadEvt) (buf : List Char) (bufsize g : Nat),
      ((readLoop rOk input buf bufsize g).2).all
        (fun e => decide (e.1 = OutStream.stderr)) = true := by
  intro input
  induction input with
  | nil =>
    intro buf b g
    simp [readLoop]
  | cons e rest ih =>
    intro buf b g
    cases e with
    | intr =>
      rw [readLoop]
      exact ih _ _ _
    | chr c =>
      rw [readLoop]
      simp only
      split
      · simp
      · split
        · split
          · exact ih _ _ _
          · simp
        · exact ih _ _ _

theorem waitLoop_skip (rest : List Nat) :
    ∀ (pre : List Nat),
      (∀ t ∈ pre, WIFEXITED t = false ∧ WIFSIGNALED t = false) →
      waitLoop (pre ++ rest) = waitLoop rest := by
  intro pre
  induction pre with
  | nil => intro _; rfl
  | cons s pre' ih =>
    intro hpre
    have hs := hpre s (List.mem_cons_self s pre')
    rw [List.cons_append, waitLoop]
    rw [hs.1, hs.2]
    simp only [Bool.or_false, if_false]
    exact ih (fun t ht => hpre t (List.mem_cons_of_mem s ht))

theorem driverIters_stopped (script : List (Option (List Char))) :
    driverIters false script = 0 := by
  cases script with
  | nil => rfl
  | cons a l => rfl

theorem bytesOf_append (a b : List ReadEvt) :
    bytesOf (a ++ b) = bytesOf a ++ bytesOf b := by
  induction a with
  | nil => rfl
  | cons e rest ih => cases e <;> simp [bytesOf, ih]

theorem strtokAll_exit_line : strtokAll ['e', 'x', 'i', 't'] = [['e', 'x', 'i', 't']] := by
  rw [strtokAll_cons_tok _ _ (by decide)]
  rw [show (['x', 'i', 't'].dropWhile (fun x => !isDelim x)) = [] from by decide]
  rw [strtokAll_nil]
  decide

theorem tokensOfLine_exit : tokensOfLine ['e', 'x', 'i', 't'] = ["exit"] := by
  rw [tokensOfLine, strtokAll_exit_line]
  decide

theorem scanCommands_none (name : String) :
    ∀ (l : List (String × Bool)),
      l.all (fun p => decide (name ≠ p.1)) = true →
      (scanCommands name l).1 = none := by
  intro l
  induction l with
  | nil => intro _; rfl
  | cons p rest ih =>
    intro h
    rw [List.all_cons, Bool.and_eq_true] at h
    have hne : name ≠ p.1 := of_decide_eq_true h.1
    rw [scanCommands, if_neg hne]
    exact ih h.2

/-- C1 (amended): the parent branch of `shell_fork` blocks until the
child reaches a terminal state (skipping stopped notifications) and
then returns `WEXITSTATUS` of that status in every case — also when
the child was terminated by a signal, where the same exit-code
extraction is reused rather than a distinct signal-derived status. -/
theorem shell_fork_returns_wexitstatus :
    ∀ (pre : List Nat) (s : Nat) (post : List Nat),
      (∀ t ∈ pre, WIFEXITED t = false ∧ WIFSIGNALED t = false) →
      (WIFEXITED s || WIFSIGNALED s) = true →
      shell_fork true (pre ++ s :: post) =
        (some (Int.ofNat (WEXITSTATUS s)), []) := by
  intro pre s post hpre hs
  rw [shell_fork]
  simp only [if_true]
  rw [waitLoop_skip (s :: post) pre hpre, waitLoop, hs]
  simp

/-- C1 witness: with one stopped notification (status 4991, SIGSTOP)
followed by a SIGKILL termination (status 9), the parent waits
through the stop and returns `WEXITSTATUS 9`. -/
theorem shell_fork_returns_wexitstatus_witness :
    (∀ t ∈ [4991], WIFEXITED t = false ∧ WIFSIGNALED t = false) ∧
    (WIFEXITED 9 || WIFSIGNALED 9) = true ∧
    shell_fork true [4991, 9] = (some (Int.ofNat (WEXITSTATUS 9)), []) :=
  ⟨by decide, by decide,
    shell_fork_returns_wexitstatus [4991] 9 [] (by decide) (by decide)⟩

/-- C1 counterexample: for a child terminated by signal 9 the parent
returns exactly `WEXITSTATUS` of the raw status — the normal-exit-code
extraction, which here yields `0` and is indistinguishable from a
child that exited normally with code `0` — not a distinct
signal-derived status. -/
theorem shell_fork_signal_reuses_exit_extraction :
    WIFSIGNALED 9 = true ∧ WIFEXITED 9 = false ∧
    shell_fork true [9] = (some (Int.ofNat (WEXITSTATUS 9)), []) ∧
    shell_fork true [9] = shell_fork true [0] := by
  refine ⟨by decide, by decide, by decide, by decide⟩

/-- C2 (code evaluated at the failing input): at end of input
`shell_readline` obtains no line, and `shell_loop` leaves `running`
set and performs further prompt/read iterations instead of
terminating — two consecutive end-of-input reads still count as two
loop iterations. -/
theorem eof_keeps_loop_running :
    (shell_readline true (fun _ => true) []).1 = none ∧
    loopIter true none = true ∧
    driverIters true [none, none] = 2 := by
  refine ⟨rfl, rfl, rfl⟩

/-- C3: dispatching a line whose first token is `"exit"` (an inline
entry of the command table, `fork == 0`) moves the driver's running
state from RUNNING to TERMINATED, and no further iteration of
`shell_loop` occurs after that iteration. -/
theorem exit_terminates_loop :
    ∀ (l : List Char) (rest : List String)
      (future : List (Option (List Char))),
      tokensOfLine l = "exit" :: rest →
      (scanCommands "exit" commands).1 = some false ∧
      loopIter true (some l) = false ∧
      driverIters true (some l :: future) = 1 := by
  intro l rest future h
  have hstop : loopIter true (some l) = false := by
    rw [loopIter]
    rw [h]
    rfl
  refine ⟨by decide, hstop, ?_⟩
  rw [driverIters, hstop, driverIters_stopped]

/-- C3 witness: the concrete line `exit` terminates the loop after
its own iteration. -/
theorem exit_terminates_loop_witness :
    tokensOfLine ['e', 'x', 'i', 't'] = "exit" :: [] ∧
    ((scanCommands "exit" commands).1 = some false ∧
      loopIter true (some ['e', 'x', 'i', 't']) = false ∧
      driverIters true [some ['e', 'x', 'i', 't'], none] = 1) :=
  ⟨tokensOfLine_exit,
    exit_terminates_loop ['e', 'x', 'i', 't'] [] [none] tokensOfLine_exit⟩

theorem strtokAll_ls_line :
    strtokAll ['l', 's', ' ', ' ', ' ', '-', 'a', '\t', '/'] =
      [['l', 's'], ['-', 'a'], ['/']] := by
  rw [strtokAll_cons_tok _ _ (by decide)]
  rw [show (['s', ' ', ' ', ' ', '-', 'a', '\t', '/'].dropWhile
      (fun x => !isDelim x)) = [' ', ' ', ' ', '-', 'a', '\t', '/'] from by decide]
  rw [strtokAll_cons_delim _ _ (by decide)]
  rw [strtokAll_cons_delim _ _ (by decide)]
  rw [strtokAll_cons_delim _ _ (by decide)]
  rw [strtokAll_cons_tok _ _ (by decide)]
  rw [show (['a', '\t', '/'].dropWhile (fun x => !isDelim x)) =
      ['\t', '/'] from by decide]
  rw [strtokAll_cons_delim _ _ (by decide)]
  rw [strtokAll_cons_tok _ _ (by decide)]
  rw [show (([] : List Char).dropWhile (fun x => !isDelim x)) = [] from rfl]
  rw [strtokAll_nil]
  decide

/-- C4 (amended): the Line Reader's allocation and growth failures and
the Process Executor's process-creation failure are reported on
standard error, but the Tokenizer's allocation and growth failures are
reported on standard output (`printf`), for every oracle and input. -/
theorem fault_report_streams :
    ∀ (mOk : Bool) (rOk : Nat → Bool) (input : List ReadEvt)
      (mOk2 : Bool) (rOk2 : Nat → Bool) (line : List Char)
      (forkOk : Bool) (waits : List Nat),
      ((shell_readline mOk rOk input).2).all
        (fun e => decide (e.1 = OutStream.stderr)) = true ∧
      ((shell_splitline mOk2 rOk2 line).2).all
        (fun e => decide (e.1 = OutStream.stdout)) = true ∧
      ((shell_fork forkOk waits).2).all
        (fun e => decide (e.1 = OutStream.stderr)) = true := by
  intro mOk rOk input mOk2 rOk2 line forkOk waits
  refine ⟨?_, ?_, ?_⟩
  · rw [shell_readline]
    split
    · exact readLoop_trace_stderr rOk input [] _ _
    · rfl
  · rw [shell_splitline]
    split
    · exact splitLoop_trace_stdout rOk2 (strtokAll line) [] _ _
    · rfl
  · rw [shell_fork]
    split
    · split <;> rfl
    · rfl

/-- C4 counterexample: when the Tokenizer's initial allocation fails,
its fault report is written to standard output, not standard error. -/
theorem tokenizer_fault_on_stdout :
    (shell_splitline false (fun _ => true) ['l', 's']).2 =
      [(OutStream.stdout, Msg.mallocFail)] ∧
    OutStream.stdout ≠ OutStream.stderr := by
  exact ⟨rfl, by decide⟩

/-- C5: the prompt printed before each read is the working directory
followed by `"$ "`, resolved as the `PWD` environment variable if
present, else the live `getcwd` query, else the literal `"(null)"`. -/
theorem prompt_resolution_order :
    (∀ (p : String) (q : Option String), shell_prompt (some p) q = p ++ "$ ") ∧
    (∀ (d : String), shell_prompt none (some d) = d ++ "$ ") ∧
    shell_prompt none none = "(null)" ++ "$ " :=
  ⟨fun _ _ => rfl, fun _ => rfl, rfl⟩

/-- C6: for every input stream that contains a newline, and whenever
every buffer growth succeeds, `shell_readline` returns exactly the
bytes read before the first newline — excluding the newline, without
truncation or corruption — also for lines spanning several
fixed-increment growth steps. -/
theorem readline_returns_line_before_newline :
    ∀ (rOk : Nat → Bool) (input : List ReadEvt),
      (∀ i, rOk i = true) →
      '\n' ∈ bytesOf input →
      shell_readline true rOk input =
        (some ((bytesOf input).takeWhile (fun c => c ≠ '\n')), []) := by
  intro rOk input h1 h2
  rw [shell_readline]
  simp only [if_true]
  rw [readLoop_newline rOk h1 input [] _ _ h2]
  simp

/-- C6 witness: a 2500-byte line spanning two growth steps of the
1024-byte initial buffer is returned in full. -/
theorem readline_returns_line_before_newline_witness :
    (∀ i : Nat, (fun _ : Nat => true) i = true) ∧
    '\n' ∈ bytesOf longInput ∧
    shell_readline true (fun _ => true) longInput =
      (some ((bytesOf longInput).takeWhile (fun c => c ≠ '\n')), []) := by
  have hm : '\n' ∈ bytesOf longInput := by
    rw [longInput, bytesOf_append]
    exact List.mem_append_right _ (by decide)
  exact ⟨fun _ => rfl, hm,
    readline_returns_line_before_newline (fun _ => true) longInput (fun _ => rfl) hm⟩

/-- C7: every successful `shell_splitline` result is exactly the
collapsed-run split of the line on the delimiter set {space, tab,
carriage return, newline, bell} — delimiter runs collapse and no
empty token is produced — and the line `"ls   -a\t/"` yields exactly
the tokens `["ls", "-a", "/"]`. -/
theorem splitline_collapses_delimiter_runs :
    (∀ (rOk : Nat → Bool) (line : List Char),
      (shell_splitline true rOk line).1 = none ∨
      (shell_splitline true rOk line).1 = some (specCollapsedTokens line)) ∧
    (shell_splitline true (fun _ => true)
        ['l', 's', ' ', ' ', ' ', '-', 'a', '\t', '/']).1 =
      some [['l', 's'], ['-', 'a'], ['/']] := by
  constructor
  · intro rOk line
    cases hres : (shell_splitline true rOk line).1 with
    | none => exact Or.inl rfl
    | some ts =>
      refine Or.inr ?_
      rw [shell_splitline] at hres
      simp only [if_true] at hres
      have hts := splitLoop_sound rOk (strtokAll line) [] _ _ ts hres
      rw [hts]
      rw [List.nil_append, strtok_eq_specCollapsed]
  · rw [shell_splitline]
    simp only [if_true]
    rw [strtokAll_ls_line]
    rw [splitLoop_ok (fun _ => true) (fun _ => rfl)]
    rfl

/-- C8: for every argument vector whose scan to the terminating
marker yields `argc == 0`, `shell_execute` returns the sentinel `-1`
without comparing any command-table name and without delegating or
printing anything. -/
theorem empty_argv_noop :
    ∀ (forkRun : String → List String → Int × List OutEvt)
      (inlineRun : String → List String → Int) (argv : List String),
      argv.length = 0 →
      shell_execute forkRun inlineRun argv = (-1, []) ∧
      (dispatch argv).2 = [] := by
  intro fr ir argv h
  have hnil : argv = [] := List.length_eq_zero.mp h
  subst hnil
  exact ⟨rfl, rfl⟩

/-- C8 witness: the empty argument vector (from an empty input line)
returns `-1` and compares no table names. -/
theorem empty_argv_noop_witness :
    ([] : List String).length = 0 ∧
    (shell_execute (fun _ _ => (0, [])) (fun _ _ => 0) [] = (-1, []) ∧
      (dispatch ([] : List String)).2 = []) :=
  ⟨rfl, empty_argv_noop (fun _ _ => (0, [])) (fun _ _ => 0) [] rfl⟩

/-- C9: for every non-empty argument vector whose first token matches
no command-table name (case-sensitive exact match), `shell_execute`
prints the user-visible not-found message (on stdout), returns the
nonzero sentinel `-1`, and its dispatch outcome is `notFound` —
the fork delegate is never invoked, so the result is the same for
every `forkRun`. -/
theorem unknown_command_not_found :
    ∀ (forkRun : String → List String → Int × List OutEvt)
      (inlineRun : String → List String → Int)
      (name : String) (rest : List String),
      commands.all (fun p => decide (name ≠ p.1)) = true →
      shell_execute forkRun inlineRun (name :: rest) =
        (-1, [(OutStream.stdout, Msg.notFound name)]) ∧
      (dispatch (name :: rest)).1 = Dispatch.notFound name ∧
      (-1 : Int) ≠ 0 := by
  intro fr ir name rest h
  have hnone := scanCommands_none name commands h
  have hd : (dispatch (name :: rest)).1 = Dispatch.notFound name := by
    rw [dispatch]
    cases hsc : scanCommands name commands with
    | mk fst snd =>
      rw [hsc] at hnone
      simp only at hnone
      subst hnone
      rfl
  refine ⟨?_, hd, by decide⟩
  rw [shell_execute, hd]

/-- C9 witness: the unregistered name `frobnicate` prints the
not-found message, returns `-1` and is not dispatched to any fork. -/
theorem unknown_command_not_found_witness :
    commands.all (fun p => decide ("frobnicate" ≠ p.1)) = true ∧
    (shell_execute (fun _ _ => (0, [])) (fun _ _ => 0) ["frobnicate"] =
        (-1, [(OutStream.stdout, Msg.notFound "frobnicate")]) ∧
      (dispatch ["frobnicate"]).1 = Dispatch.notFound "frobnicate" ∧
      (-1 : Int) ≠ 0) :=
  ⟨by decide,
    unknown_command_not_found (fun _ _ => (0, [])) (fun _ _ => 0)
      "frobnicate" [] (by decide)⟩

/-- C10: the empty-argv no-op sentinel, the unknown-command sentinel
and the process-creation-failure sentinel of `shell_fork` are all the
same value `-1`, indistinguishable by the loop, and `-1` lies outside
the `0..255` range `WEXITSTATUS` produces for normal execution
results. -/
theorem sentinel_statuses_collide :
    (shell_execute (fun _ _ => (0, [])) (fun _ _ => 0) []).1 = -1 ∧
    (shell_execute (fun _ _ => (0, [])) (fun _ _ => 0) ["frobnicate"]).1 = -1 ∧
    (shell_fork false []).1 = some (-1) ∧
    ¬((0 : Int) ≤ -1 ∧ (-1 : Int) ≤ 255) ∧
    (∀ s : Nat, WEXITSTATUS s ≤ 255) := by
  refine ⟨rfl, by decide, rfl, by decide, fun s => ?_⟩
  have h := Nat.mod_lt (s / 256) (show 0 < 256 by omega)
  rw [WEXITSTATUS]
  omega
